import Mathlib

/-!
Shallow embedding of the transport layer of `bevy_eventwork` (files
`src/error.rs`, `src/serialize.rs`, `src/ws.rs`), together with theorems
settling the specification claims about it.

Modelling conventions:
* bytes are `Nat` values (well-formed bytes are `< 256`);
* the byte stream feeding `recv_loop` is a list of read events, one event per
  `read`/`read_exact` call issued by the loop; the sink (`async_channel`
  sender) is a list of `Bool` results, one per `send` call (`false` means the
  channel was closed);
* a Rust panic (`todo!()`, slice index out of range) is an explicit outcome of
  the model, never an unmodelled crash;
* futures polled by `OwnedIncoming::poll_next` are resolved by an environment
  value per poll (`none` = the inner future is pending, `some o` = it is ready
  with outcome `o`).
-/

/-! ## Little-endian integer encoding (`u64::from_le_bytes` / `to_le_bytes`) -/

/-- `natToLE k n` is the `k`-byte little-endian encoding of `n % 256^k`,
mirroring `u64::to_le_bytes` when `k = 8`. -/
def natToLE : Nat → Nat → List Nat
  | 0, _ => []
  | k + 1, n => n % 256 :: natToLE k (n / 256)

/-- `leToNat bs` reads a list of bytes as an unsigned little-endian integer,
mirroring `u64::from_le_bytes` on 8-byte input. -/
def leToNat : List Nat → Nat
  | [] => 0
  | b :: bs => b + 256 * leToNat bs

/-! ## Error taxonomy (`src/error.rs`, enum `NetworkError`)

Payloads that are opaque to this layer (`std::io::Error`, HTTP responses,
`ProtocolError`, `ConnectionId`) are modelled as `Nat` tags. -/

/-- The `NetworkError` enum of `src/error.rs`. -/
inductive NetworkError where
  | Accept (e : Nat)
  | ConnectionNotFound (id : Nat)
  | ChannelClosed (id : Nat)
  | Listen (e : Nat)
  | Connection (e : Nat)
  | SendError
  | Serialization
  | Http (response : Nat)
  | Io (e : Nat)
  | Protocol (e : Nat)
  deriving DecidableEq, Repr

/-- The variants of `async_tungstenite::tungstenite::Error` (tungstenite 0.21,
the version matched by the `From` impl in `src/error.rs`). -/
inductive TungsteniteError where
  | ConnectionClosed
  | AlreadyClosed
  | Io (e : Nat)
  | Tls (e : Nat)
  | Capacity (e : Nat)
  | Protocol (e : Nat)
  | WriteBufferFull (m : Nat)
  | Utf8
  | AttackAttempt
  | Url (u : Nat)
  | Http (response : Nat)
  | HttpFormat (e : Nat)
  deriving DecidableEq, Repr

/-- A value that is either produced normally or lost to a Rust panic. -/
inductive PanicOr (α : Type) where
  | panicked
  | value (a : α)
  deriving DecidableEq, Repr

/-- The `impl From<async_tungstenite::tungstenite::Error> for NetworkError` of
`src/error.rs`: every `todo!()` arm is a panic. -/
def networkErrorFrom : TungsteniteError → PanicOr NetworkError
  | .ConnectionClosed => .panicked
  | .AlreadyClosed => .panicked
  | .Io e => .value (.Io e)
  | .Tls _ => .panicked
  | .Capacity _ => .panicked
  | .Protocol e => .value (.Protocol e)
  | .WriteBufferFull _ => .panicked
  | .Utf8 => .panicked
  | .AttackAttempt => .panicked
  | .Url _ => .panicked
  | .Http r => .value (.Http r)
  | .HttpFormat _ => .panicked

/-! ## NetworkPacket and the bincode codec (`src/serialize.rs`)

Modelled from the spec: `NetworkPacket` lives in `lib.rs`, which is not under
`src/`; per the spec it is "a type discriminator (identifying the application
message kind) plus an opaque payload of bytes". The discriminator `String` is
modelled by its UTF-8 byte list. `bincode` (v1, default options) encodes a
`String` and a `Vec<u8>` each as a `u64` little-endian length followed by the
raw bytes, and a struct as its fields in declaration order. -/

structure NetworkPacket where
  kind : List Nat
  data : List Nat
  deriving DecidableEq, Repr

/-- bincode v1 default-options encoding of `NetworkPacket`. -/
def encodePacket (p : NetworkPacket) : List Nat :=
  natToLE 8 p.kind.length ++ p.kind ++ (natToLE 8 p.data.length ++ p.data)

/-- `BincodeSerializer::serialize` of `src/serialize.rs`: bincode encoding,
with any encoder error mapped to `NetworkError::Serialization`. -/
def bincodeSerialize (p : NetworkPacket) : Except NetworkError (List Nat) :=
  .ok (encodePacket p)

/-- Read one bincode length-delimited field: a `u64` little-endian byte count
followed by that many bytes; `none` when the input is too short. -/
def readLenField (bs : List Nat) : Option (List Nat × List Nat) :=
  if bs.length < 8 then none
  else
    let n := leToNat (bs.take 8)
    let rest := bs.drop 8
    if rest.length < n then none else some (rest.take n, rest.drop n)

/-- `BincodeSerializer::deserialize::<NetworkPacket>` of `src/serialize.rs`:
bincode decoding, with any decoder error mapped to
`NetworkError::Serialization`. -/
def bincodeDeserialize (bs : List Nat) : Except NetworkError NetworkPacket :=
  match readLenField bs with
  | none => .error .Serialization
  | some (kind, r1) =>
    match readLenField r1 with
    | none => .error .Serialization
    | some (data, _) => .ok ⟨kind, data⟩

/-! ## The receive loop (`WebSocketProvider::recv_loop`, `src/ws.rs` 57-126)

`recv_loop` allocates `buffer = vec![0; settings.max_message_size.unwrap_or(64 << 20)]`
(`bufSize` below) and then loops: read up to 8 bytes into `buffer[..8]`,
dispatch on the byte count, read the body with `read_exact(&mut buffer[..L])`,
decode it with `bincode::deserialize`, and push the packet into the sink.
Slicing `buffer[..n]` with `n > bufSize` is a Rust panic, modelled as the
outcome `panicked`. -/

/-- One result of a `read` call on the stream: a returned byte chunk (empty =
end of file) or an I/O error. -/
inductive ReadEv where
  | chunk (bs : List Nat)
  | ioErr
  deriving DecidableEq, Repr

/-- How one pass of `recv_loop` ends (`ranOut` is the model artifact for "the
supplied event list ended while the loop was still running"). -/
inductive RecvOutcome where
  | cleanDisconnect
  | headerViolation (n : Nat)
  | readErr
  | panicked
  | bodyErr
  | decodeErr
  | sinkClosedStop
  | ranOut
  deriving DecidableEq, Repr

/-- Result of the `read_exact` model, paired with the unconsumed events. -/
inductive ExactOut where
  | ok (bytes : List Nat)
  | err
  | ranOut
  deriving DecidableEq, Repr

/-- `read_exact(&mut buffer[..need])` for `need > 0`: keep issuing reads until
`need` bytes have accumulated; an empty chunk is end-of-file, which
`read_exact` reports as an error (`UnexpectedEof`). -/
def readExact (need : Nat) (acc : List Nat) : List ReadEv → ExactOut × List ReadEv
  | [] => (.ranOut, [])
  | .ioErr :: rest => (.err, rest)
  | .chunk bs :: rest =>
    if bs.length = 0 then (.err, rest)
    else if acc.length + bs.length < need then readExact need (acc ++ bs) rest
    else (.ok (acc ++ bs), rest)

/-- The tail of one `recv_loop` iteration, after an 8-byte header declaring
body length `len` was read: slice `buffer[..len]` (panicking when
`len > bufSize`), `read_exact` the body, `bincode::deserialize` it, and push
the packet into the sink; on success continue with `cont`. -/
def recvAfterHeader (bufSize len : Nat) (evs : List ReadEv) (sink : List Bool)
    (cont : List ReadEv → List Bool → RecvOutcome) : RecvOutcome :=
  if bufSize < len then .panicked
  else
    match (if len = 0 then (ExactOut.ok [], evs) else readExact len [] evs) with
    | (.ranOut, _) => .ranOut
    | (.err, _) => .bodyErr
    | (.ok body, rest) =>
      match bincodeDeserialize body with
      | .error _ => .decodeErr
      | .ok _ =>
        match sink with
        | [] => .ranOut
        | true :: srest => cont rest srest
        | false :: _ => .sinkClosedStop

/-- `WebSocketProvider::recv_loop`. `fuel` only bounds the number of loop
iterations the model unfolds (each iteration consumes at least one read
event, so any `fuel > evs.length` behaves the same); the header read
dispatches on the byte count exactly as the `match` at `src/ws.rs` 69-96. -/
def recvLoop (bufSize : Nat) : Nat → List ReadEv → List Bool → RecvOutcome
  | 0, _, _ => .ranOut
  | fuel + 1, evs, sink =>
    if bufSize < 8 then .panicked
    else
      match evs, sink with
      | [], _ => .ranOut
      | .ioErr :: _, _ => .readErr
      | .chunk bs :: rest, sink =>
        if bs.length = 0 then .cleanDisconnect
        else if bs.length = 8 then
          recvAfterHeader bufSize (leToNat bs) rest sink (recvLoop bufSize fuel)
        else .headerViolation bs.length

/-! ## The send loop (`WebSocketProvider::send_loop`, `src/ws.rs` 128-168)

The message source (`async_channel::Receiver`) is a list of packets; when it
is exhausted the channel is closed and `recv()` returns `Err`, ending the
`while let`. The encoder is a parameter (the source calls
`bincode::serialize`, an external function that may fail). Each `write` /
`write_all` call consumes one `WriteEv` from the environment; the returned
trace records the byte list passed to each call, in order. -/

/-- One result of a `write`/`write_all` call: `accepted n` is `Ok(n)`
(`send_loop` ignores `n`), `err` is `Err(_)`. -/
inductive WriteEv where
  | accepted (n : Nat)
  | err
  deriving DecidableEq, Repr

/-- How `send_loop` ends (`ranOut` = the write-event list ended first). -/
inductive SendOutcome where
  | srcClosed
  | writeErr
  | ranOut
  deriving DecidableEq, Repr

/-- `WebSocketProvider::send_loop`: per received message, encode it (a failed
encode logs and `continue`s), write the 8-byte little-endian length, then
`write_all` the body; an `Err` from either write `break`s the loop. -/
def sendLoop (enc : NetworkPacket → Except NetworkError (List Nat)) :
    List NetworkPacket → List WriteEv → SendOutcome × List (List Nat)
  | [], _ => (.srcClosed, [])
  | m :: ms, wenv =>
    match enc m with
    | .error _ => sendLoop enc ms wenv
    | .ok encoded =>
      let header := natToLE 8 encoded.length
      match wenv with
      | [] => (.ranOut, [header])
      | .err :: _ => (.writeErr, [header])
      | .accepted _ :: wrest =>
        match wrest with
        | [] => (.ranOut, [header, encoded])
        | .err :: _ => (.writeErr, [header, encoded])
        | .accepted _ :: wrest2 =>
          let r := sendLoop enc ms wrest2
          (r.1, header :: encoded :: r.2)

/-! ## The accept sequence (`OwnedIncoming`, `src/ws.rs` 180-238)

`OwnedIncoming` holds the `TcpListener` (opaque tag `inner`) and
`stream : Option<…>`, the at-most-one in-flight accept future. The model adds
a ghost counter `started` numbering the attempts, and `pollNext` emits ghost
events recording when an attempt is started and when it completes, so that
the single-slot discipline is a statement about traces. The async block at
`src/ws.rs` 205-228 maps its two fallible stages to `Option`: `None` on a TCP
`accept` error or a WebSocket upgrade error, `Some` socket otherwise. -/

/-- Outcome of one complete accept attempt (the environment's choice). -/
inductive AcceptOutcome where
  | tcpErr
  | upgradeErr (s : Nat)
  | accepted (s : Nat)
  deriving DecidableEq, Repr

/-- The async block built in `poll_next` (`src/ws.rs` 205-228): an error at
either stage yields `None`, success yields `Some` socket. -/
def acceptBlock : AcceptOutcome → Option Nat
  | .tcpErr => none
  | .upgradeErr _ => none
  | .accepted s => some s

/-- `std::task::Poll`. -/
inductive Poll (α : Type) where
  | ready (a : α)
  | pending
  deriving DecidableEq, Repr

/-- `OwnedIncoming`: listener tag, the in-flight slot, and the ghost count of
attempts started so far. -/
structure IncState where
  inner : Nat
  stream : Option Unit
  started : Nat
  deriving DecidableEq, Repr

/-- `OwnedIncoming::new`. -/
def incomingNew (listener : Nat) : IncState := ⟨listener, none, 0⟩

/-- Ghost events emitted by `pollNext`: attempt `n` was started on listener
`l`, or attempt `n` completed with result `r`. -/
inductive AcceptEv where
  | start (n : Nat) (l : Nat)
  | finish (n : Nat) (r : Option Nat)
  deriving DecidableEq, Repr

/-- `OwnedIncoming::poll_next`: if no future is in flight, start one on the
listener; then poll it (`env`: `none` = pending, `some o` = ready with
outcome `o`); when it is ready, clear the slot and return `Ready` with the
block's result. -/
def pollNext (st : IncState) (env : Option AcceptOutcome) :
    IncState × Poll (Option Nat) × List AcceptEv :=
  let startEvs : IncState × List AcceptEv :=
    if st.stream.isNone then
      (⟨st.inner, some (), st.started + 1⟩, [.start st.started st.inner])
    else (st, [])
  let st1 := startEvs.1
  match env with
  | none => (st1, .pending, startEvs.2)
  | some o =>
    (⟨st1.inner, none, st1.started⟩, .ready (acceptBlock o),
      startEvs.2 ++ [.finish (st1.started - 1) (acceptBlock o)])

/-- Repeatedly call `poll_next`, one environment entry per call, collecting
the ghost events. -/
def runIncoming (st : IncState) : List (Option AcceptOutcome) → IncState × List AcceptEv
  | [] => (st, [])
  | e :: es =>
    let r := pollNext st e
    let r2 := runIncoming r.1 es
    (r2.1, r.2.2 ++ r2.2)

/-- `singleSlot next inflight evs`: the ghost trace `evs` respects the
single-slot discipline, given that `next` attempts have been started so far
and an attempt is currently in flight iff `inflight`: a start carries the
next fresh number and only happens with the slot empty, a finish refers to
the attempt in flight and empties the slot. -/
def singleSlot : Nat → Bool → List AcceptEv → Bool
  | _, _, [] => true
  | next, false, .start n _ :: rest => n == next && singleSlot (next + 1) true rest
  | next, true, .finish n _ :: rest => (n + 1 == next) && singleSlot next false rest
  | _, _, _ => false

/-! ## Helper lemmas -/

theorem natToLE_length (k n : Nat) : (natToLE k n).length = k := by
  induction k generalizing n with
  | zero => rfl
  | succ k ih => simp [natToLE, ih]

theorem leToNat_natToLE (k n : Nat) (h : n < 256 ^ k) : leToNat (natToLE k n) = n := by
  induction k generalizing n with
  | zero =>
    simp only [Nat.pow_zero, Nat.lt_one_iff] at h
    simp [natToLE, leToNat, h]
  | succ k ih =>
    have hdiv : n / 256 < 256 ^ k := by
      rw [Nat.div_lt_iff_lt_mul (by norm_num)]
      calc n < 256 ^ (k + 1) := h
        _ = 256 ^ k * 256 := by ring
    simp only [natToLE, leToNat, ih (n / 256) hdiv]
    omega

theorem readLenField_encode (n : Nat) (xs rest : List Nat)
    (hn : n < 2 ^ 64) (hx : xs.length = n) :
    readLenField (natToLE 8 n ++ (xs ++ rest)) = some (xs, rest) := by
  have hlen : (natToLE 8 n).length = 8 := natToLE_length 8 n
  have h256 : n < 256 ^ 8 := by
    have : (256 : Nat) ^ 8 = 2 ^ 64 := by norm_num
    omega
  have htake : (natToLE 8 n ++ (xs ++ rest)).take 8 = natToLE 8 n := by
    rw [← hlen]; exact List.take_left _ _
  have hdrop : (natToLE 8 n ++ (xs ++ rest)).drop 8 = xs ++ rest := by
    rw [← hlen]; exact List.drop_left _ _
  have htotal : (natToLE 8 n ++ (xs ++ rest)).length = 8 + (xs.length + rest.length) := by
    simp [hlen]
  unfold readLenField
  rw [if_neg (by omega)]
  simp only [htake, hdrop, leToNat_natToLE 8 n h256]
  rw [if_neg (by rw [List.length_append]; omega)]
  have htx : (xs ++ rest).take n = xs := by rw [← hx]; exact List.take_left _ _
  have hdx : (xs ++ rest).drop n = rest := by rw [← hx]; exact List.drop_left _ _
  rw [htx, hdx]

theorem recvLoop_chunk_eq (bufSize fuel : Nat) (bs : List Nat) (rest : List ReadEv)
    (sink : List Bool) (h8 : 8 ≤ bufSize) :
    recvLoop bufSize (fuel + 1) (.chunk bs :: rest) sink =
      (if bs.length = 0 then .cleanDisconnect
       else if bs.length = 8 then
         recvAfterHeader bufSize (leToNat bs) rest sink (recvLoop bufSize fuel)
       else .headerViolation bs.length) := by
  simp [recvLoop, Nat.not_lt.mpr h8]

/-! ## Claim theorems -/

/-- C4: for every valid `NetworkPacket` value `p` (field lengths below the
`u64`/`usize` range, as any Rust value satisfies), deserializing the bytes
produced by serializing `p` with the bincode codec yields `p` again. -/
theorem packet_roundtrip (p : NetworkPacket)
    (hk : p.kind.length < 2 ^ 64) (hd : p.data.length < 2 ^ 64) :
    bincodeDeserialize (encodePacket p) = .ok p := by
  have h2 : readLenField (natToLE 8 p.data.length ++ (p.data ++ [])) = some (p.data, []) :=
    readLenField_encode _ _ _ hd rfl
  rw [List.append_nil] at h2
  have h1 : readLenField
      (natToLE 8 p.kind.length ++ (p.kind ++ (natToLE 8 p.data.length ++ p.data))) =
      some (p.kind, natToLE 8 p.data.length ++ p.data) :=
    readLenField_encode _ _ _ hk rfl
  have henc : encodePacket p =
      natToLE 8 p.kind.length ++ (p.kind ++ (natToLE 8 p.data.length ++ p.data)) := by
    unfold encodePacket
    rw [List.append_assoc]
  rw [bincodeDeserialize, henc, h1]
  simp [h2]

/-- Witness for C4 at a concrete packet. -/
theorem packet_roundtrip_witness :
    bincodeDeserialize (encodePacket ⟨[1, 2], [3]⟩) = .ok ⟨[1, 2], [3]⟩ :=
  packet_roundtrip ⟨[1, 2], [3]⟩ (by decide) (by decide)

/-- C9: the bincode codec of `src/serialize.rs` is total: on every byte
input, `deserialize` returns either a packet or `NetworkError::Serialization`
(it has no panic outcome), and `serialize` returns either bytes or a
`SerializationError`; in particular the empty input is malformed and yields
`Serialization`. -/
theorem bincode_no_panic (bs : List Nat) (p : NetworkPacket) :
    (bincodeDeserialize bs = .error .Serialization ∨
      ∃ q, bincodeDeserialize bs = .ok q) ∧
    (∃ out, bincodeSerialize p = .ok out) ∧
    bincodeDeserialize [] = .error .Serialization := by
  refine ⟨?_, ⟨_, rfl⟩, rfl⟩
  rw [bincodeDeserialize]
  cases h1 : readLenField bs with
  | none => exact .inl rfl
  | some kr =>
    obtain ⟨kind, r1⟩ := kr
    cases h2 : readLenField r1 with
    | none => left; simp [h2]
    | some dr =>
      obtain ⟨data, r2⟩ := dr
      right
      exact ⟨⟨kind, data⟩, by simp [h2]⟩

/-- C7 (status: code bug): the conversion from
`async_tungstenite::tungstenite::Error` into `NetworkError` is NOT total —
only the `Io`, `Protocol` and `Http` variants are mapped, and the nine
remaining variants (e.g. `ConnectionClosed`, which tungstenite returns on any
use of a closed connection) hit a `todo!()` arm and panic. -/
theorem networkErrorFrom_todo_panics :
    networkErrorFrom .ConnectionClosed = .panicked ∧
    networkErrorFrom .AlreadyClosed = .panicked ∧
    networkErrorFrom .Utf8 = .panicked ∧
    networkErrorFrom .AttackAttempt = .panicked ∧
    (∀ e, networkErrorFrom (.Tls e) = .panicked) ∧
    (∀ e, networkErrorFrom (.Capacity e) = .panicked) ∧
    (∀ m, networkErrorFrom (.WriteBufferFull m) = .panicked) ∧
    (∀ u, networkErrorFrom (.Url u) = .panicked) ∧
    (∀ e, networkErrorFrom (.HttpFormat e) = .panicked) ∧
    (∀ e, networkErrorFrom (.Io e) = .value (.Io e)) ∧
    (∀ e, networkErrorFrom (.Protocol e) = .value (.Protocol e)) ∧
    (∀ r, networkErrorFrom (.Http r) = .value (.Http r)) :=
  ⟨rfl, rfl, rfl, rfl, fun _ => rfl, fun _ => rfl, fun _ => rfl, fun _ => rfl,
    fun _ => rfl, fun _ => rfl, fun _ => rfl, fun _ => rfl⟩

/-- C1 (status: code bug): `recv_loop` never compares the declared length
against `max_message_size`; with the default 64 MiB bound (`bufSize =
67108864`) a frame declaring length 67108865 drives the loop into
`read_exact(&mut buffer[..67108865])` on a 67108864-byte buffer, a slice
index out of range, i.e. a panic — not the protocol-violation termination the
claim requires. -/
theorem recvLoop_oversize_panics :
    67108864 < leToNat [1, 0, 0, 4, 0, 0, 0, 0] ∧
    recvLoop 67108864 2 [ReadEv.chunk [1, 0, 0, 4, 0, 0, 0, 0]] [] =
      RecvOutcome.panicked := by
  exact ⟨by decide, rfl⟩

/-- C3: on the 8-byte header read, `recv_loop` terminates cleanly (no error)
when the read returns 0 bytes (end-of-file), terminates with a framing
violation when it returns 1-7 bytes, and on a full 8-byte header continues
with the header interpreted as an unsigned little-endian length (`leToNat`). -/
theorem recvLoop_header_cases (bufSize fuel : Nat) (bs : List Nat)
    (rest : List ReadEv) (sink : List Bool) (h8 : 8 ≤ bufSize) :
    (bs.length = 0 →
      recvLoop bufSize (fuel + 1) (.chunk bs :: rest) sink = .cleanDisconnect) ∧
    (1 ≤ bs.length → bs.length ≤ 7 →
      recvLoop bufSize (fuel + 1) (.chunk bs :: rest) sink =
        .headerViolation bs.length) ∧
    (bs.length = 8 →
      recvLoop bufSize (fuel + 1) (.chunk bs :: rest) sink =
        recvAfterHeader bufSize (leToNat bs) rest sink (recvLoop bufSize fuel)) := by
  rw [recvLoop_chunk_eq bufSize fuel bs rest sink h8]
  refine ⟨fun h0 => by simp [h0], fun h1 h7 => ?_, fun h8' => by simp [h8']⟩
  rw [if_neg (by omega), if_neg (by omega)]

/-- Witness for C3: the three header cases at concrete inputs. -/
theorem recvLoop_header_cases_witness :
    recvLoop 67108864 1 [ReadEv.chunk []] [] = .cleanDisconnect ∧
    recvLoop 67108864 1 [ReadEv.chunk [7, 7, 7]] [] = .headerViolation 3 ∧
    recvLoop 67108864 1 [ReadEv.chunk [9, 0, 0, 0, 0, 0, 0, 0]] [] =
      recvAfterHeader 67108864 (leToNat [9, 0, 0, 0, 0, 0, 0, 0]) [] []
        (recvLoop 67108864 0) :=
  ⟨(recvLoop_header_cases 67108864 0 [] [] [] (by decide)).1 rfl,
   (recvLoop_header_cases 67108864 0 [7, 7, 7] [] [] (by decide)).2.1
      (by decide) (by decide),
   (recvLoop_header_cases 67108864 0 [9, 0, 0, 0, 0, 0, 0, 0] [] [] (by decide)).2.2 rfl⟩

/-- C10 (implicit): `recv_loop` also terminates, without error or panic, when
pushing a decoded packet into a sink whose channel has been closed by its
owner (`messages.send(..).is_err()` at `src/ws.rs` 120-123): a well-formed
frame whose body decodes to a packet, met by a closed sink, ends the loop. -/
theorem recvLoop_sink_closed (bufSize fuel : Nat) (bs body : List Nat)
    (rest : List ReadEv) (sink : List Bool) (p : NetworkPacket)
    (h8 : 8 ≤ bufSize) (hbs : bs.length = 8) (hL : leToNat bs = body.length)
    (hpos : 0 < body.length) (hcap : body.length ≤ bufSize)
    (hdec : bincodeDeserialize body = .ok p) :
    recvLoop bufSize (fuel + 1) (.chunk bs :: .chunk body :: rest) (false :: sink) =
      .sinkClosedStop := by
  have hx : readExact body.length [] (.chunk body :: rest) = (.ok body, rest) := by
    rw [readExact]
    rw [if_neg (by omega), if_neg (by simp)]
    simp
  rw [recvLoop_chunk_eq bufSize fuel bs _ _ h8, if_neg (by omega), if_pos hbs, hL,
    recvAfterHeader]
  rw [if_neg (Nat.not_lt.mpr hcap), if_neg (by omega), hx]
  simp [hdec]

/-- Witness for C10: a closed sink ends the loop on a concrete frame (body =
the 16-byte bincode encoding of the packet with empty kind and payload). -/
theorem recvLoop_sink_closed_witness :
    recvLoop 67108864 1
      [ReadEv.chunk [16, 0, 0, 0, 0, 0, 0, 0],
       ReadEv.chunk [0, 0, 0, 0, 0, 0, 0, 0, 0, 0, 0, 0, 0, 0, 0, 0]] [false] =
      .sinkClosedStop :=
  recvLoop_sink_closed 67108864 0 [16, 0, 0, 0, 0, 0, 0, 0]
    [0, 0, 0, 0, 0, 0, 0, 0, 0, 0, 0, 0, 0, 0, 0, 0] [] [] ⟨[], []⟩
    (by decide) (by decide) (by decide) (by decide) (by decide) rfl

/-- C5: `send_loop` runs until its source is closed or a write fails: a
closed (exhausted) source terminates the loop cleanly, a per-message encode
failure skips that message and continues with the rest, and an `Err` from a
write to the stream terminates the loop. -/
theorem sendLoop_behavior (enc : NetworkPacket → Except NetworkError (List Nat))
    (wenv : List WriteEv) (m : NetworkPacket) (ms : List NetworkPacket) :
    (sendLoop enc [] wenv = (.srcClosed, [])) ∧
    (∀ e, enc m = .error e → sendLoop enc (m :: ms) wenv = sendLoop enc ms wenv) ∧
    (∀ encoded, enc m = .ok encoded →
      (sendLoop enc (m :: ms) (.err :: wenv)).1 = .writeErr ∧
      ∀ n, (sendLoop enc (m :: ms) (.accepted n :: .err :: wenv)).1 = .writeErr) := by
  refine ⟨rfl, fun e he => ?_, fun encoded he => ⟨?_, fun n => ?_⟩⟩ <;>
    simp [sendLoop, he]

/-- Witness for C5: skip-and-continue on a failing encoder, abort on a
failing write. -/
theorem sendLoop_behavior_witness :
    sendLoop (fun _ => .error .Serialization) [⟨[], []⟩] [] =
      sendLoop (fun _ => .error .Serialization) [] [] ∧
    (sendLoop (fun _ => .ok [5]) [⟨[], []⟩] [.err]).1 = .writeErr :=
  ⟨(sendLoop_behavior (fun _ => .error .Serialization) [] ⟨[], []⟩ []).2.1
      .Serialization rfl,
   ((sendLoop_behavior (fun _ => .ok [5]) [] ⟨[], []⟩ []).2.2 [5] rfl).1⟩

/-- C6: per message, `send_loop` encodes the body first, then issues exactly
two stream writes in order — the body's byte length as an 8-byte
little-endian header, then the body — and an `Err` from either write aborts
the loop (the trace component records the bytes passed to each write call,
in order). -/
theorem sendLoop_write_order (enc : NetworkPacket → Except NetworkError (List Nat))
    (m : NetworkPacket) (ms : List NetworkPacket) (encoded : List Nat)
    (wenv : List WriteEv) (h : enc m = .ok encoded) :
    (natToLE 8 encoded.length).length = 8 ∧
    sendLoop enc (m :: ms) (.err :: wenv) = (.writeErr, [natToLE 8 encoded.length]) ∧
    (∀ n, sendLoop enc (m :: ms) (.accepted n :: .err :: wenv) =
      (.writeErr, [natToLE 8 encoded.length, encoded])) ∧
    (∀ n k, sendLoop enc (m :: ms) (.accepted n :: .accepted k :: wenv) =
      ((sendLoop enc ms wenv).1,
        natToLE 8 encoded.length :: encoded :: (sendLoop enc ms wenv).2)) := by
  refine ⟨natToLE_length _ _, ?_, fun n => ?_, fun n k => ?_⟩ <;> simp [sendLoop, h]

/-- Witness for C6: one message of body `[1, 2, 3]` produces the write calls
`[3, 0, 0, 0, 0, 0, 0, 0]` then `[1, 2, 3]`, in order. -/
theorem sendLoop_write_order_witness :
    sendLoop (fun _ => .ok [1, 2, 3]) [⟨[], []⟩] [.accepted 8, .accepted 3] =
      (.srcClosed, [[3, 0, 0, 0, 0, 0, 0, 0], [1, 2, 3]]) :=
  (((sendLoop_write_order (fun _ => .ok [1, 2, 3]) ⟨[], []⟩ [] [1, 2, 3] []
      rfl).2.2.2 8 3).trans (by decide))

/-- C2: a failed accept attempt (TCP-accept failure or WebSocket-upgrade
failure, i.e. the inner future resolves to `None`) never terminates the
sequence's ability to produce: the failing poll yields `Ready(None)` and
clears the slot, and the very next poll — whatever its environment — starts
a fresh accept attempt (`AcceptEv.start`) on the same listener. -/
theorem pollNext_failed_attempt (st : IncState) (o : AcceptOutcome)
    (hfail : acceptBlock o = none) :
    (pollNext st (some o)).2.1 = Poll.ready none ∧
    (pollNext st (some o)).1.stream = none ∧
    (pollNext st (some o)).1.inner = st.inner ∧
    ∀ env, (pollNext (pollNext st (some o)).1 env).2.2.head? =
        some (.start (pollNext st (some o)).1.started st.inner) ∧
      (pollNext (pollNext st (some o)).1 env).1.inner = st.inner := by
  obtain ⟨inner, s, n⟩ := st
  cases s <;>
    refine ⟨by simp [pollNext, hfail], by simp [pollNext], by simp [pollNext],
      fun env => ?_⟩ <;>
    cases env <;> simp [pollNext]

/-- Witness for C2 at a fresh sequence and a TCP accept error. -/
theorem pollNext_failed_attempt_witness :
    (pollNext (incomingNew 0) (some .tcpErr)).2.1 = Poll.ready none ∧
    (pollNext (incomingNew 0) (some .tcpErr)).1.stream = none :=
  ⟨(pollNext_failed_attempt (incomingNew 0) .tcpErr rfl).1,
   (pollNext_failed_attempt (incomingNew 0) .tcpErr rfl).2.1⟩

theorem singleSlot_run (envs : List (Option AcceptOutcome)) :
    ∀ (inner next : Nat) (s : Option Unit), (s.isSome = true → 1 ≤ next) →
      singleSlot next s.isSome (runIncoming ⟨inner, s, next⟩ envs).2 = true := by
  induction envs with
  | nil => intro inner next s _; cases s <;> rfl
  | cons e es ih =>
    intro inner next s hs
    cases s with
    | none =>
      cases e with
      | none =>
        have h := ih inner (next + 1) (some ()) (fun _ => by omega)
        simpa [runIncoming, pollNext, singleSlot] using h
      | some o =>
        have h := ih inner (next + 1) none (by simp)
        simpa [runIncoming, pollNext, singleSlot] using h
    | some u =>
      have h1 : 1 ≤ next := hs rfl
      cases e with
      | none =>
        have h := ih inner next (some ()) hs
        simpa [runIncoming, pollNext, singleSlot] using h
      | some o =>
        have h := ih inner next none (by simp)
        have hnext : next - 1 + 1 = next := by omega
        simpa [runIncoming, pollNext, singleSlot, hnext] using h

/-- C8: over every sequence of polls of a freshly created accept sequence, the
ghost trace satisfies the single-slot discipline: at most one accept attempt
is in flight at any time (a start only happens with the slot empty) and a
completed attempt clears the slot before any new attempt is started (starts
and finishes strictly alternate, with matching attempt numbers). -/
theorem runIncoming_single_slot (listener : Nat) (envs : List (Option AcceptOutcome)) :
    singleSlot 0 false (runIncoming (incomingNew listener) envs).2 = true := by
  have h := singleSlot_run envs listener 0 none (by simp)
  simpa [incomingNew] using h
